import Mathlib

/-!
Verification of the routing and request-dispatch core of the burger-api
framework.

The development shallowly embeds the relevant TypeScript sources:

* `src/utils/routing.ts`   — specificity scoring and the route comparator;
* `src/core/response.ts`   — `ApiRouter.scanDirectory`, `convertFilePathToRoute`
  and `matchRoute` (segment matching with percent-decoding of parameters);
* `src/core/router.ts`     — the same loader/matcher family (older variant);
* `src/index.ts`           — `Burger.processApiRoutes` (404/405 classification
  and per-route middleware chain assembly) and `Burger.processMiddleware`
  (the three-outcome middleware dispatch loop);
* `src/middleware/validator.ts` — `createValidationMiddleware`.

JavaScript strings are modelled as `List Char` so that every operation is an
executable structural recursion; JSON values are modelled by `JValue`; the
mutable per-request state threaded through the validator is modelled by an
explicit `VState` record; the validator call log (`calls`) instruments which
schema validators were invoked, for claims about validators not running.
-/

namespace BurgerApi

/-- Strings of the embedded program: JavaScript strings as lists of characters. -/
abbrev Str := List Char

/-- Splits a list of characters at every occurrence of the separator, keeping
empty pieces, like the JavaScript one-character form of s.split(sep). -/
def splitOnChar (sep : Char) : Str → List Str
  | [] => [[]]
  | c :: rest =>
    let r := splitOnChar sep rest
    if c = sep then [] :: r
    else
      match r with
      | [] => [[c]]
      | h :: t => (c :: h) :: t

/-- Tests whether the string starts with the given single character,
like s.startsWith(c) for a one-character argument. -/
def startsWithChar (c : Char) : Str → Bool
  | [] => false
  | a :: _ => a = c

/-- Tests whether the string ends with the given single character,
like s.endsWith(c) for a one-character argument. -/
def endsWithChar (c : Char) (s : Str) : Bool :=
  match s.getLast? with
  | some a => a = c
  | none => false

/-- Three-way lexicographic comparison by character code, the model used here
for JavaScript's a.localeCompare(b) on the ASCII route paths the router
produces (negative when a sorts first, positive when b sorts first). -/
def lexCompare : Str → Str → Int
  | [], [] => 0
  | [], _ :: _ => -1
  | _ :: _, [] => 1
  | a :: as, b :: bs =>
    if a.toNat < b.toNat then -1
    else if b.toNat < a.toNat then 1
    else lexCompare as bs

/-- Lower-cases one ASCII character, as String.prototype.toLowerCase does on
the ASCII method names the framework uses. -/
def toLowerChar (c : Char) : Char :=
  if 65 ≤ c.toNat ∧ c.toNat ≤ 90 then Char.ofNat (c.toNat + 32) else c

/-- Lower-cases a string character by character (req.method.toLowerCase()). -/
def toLowerStr (s : Str) : Str := s.map toLowerChar

/-- Value of one hexadecimal digit, if the character is one. -/
def hexDigitVal (c : Char) : Option Nat :=
  if 48 ≤ c.toNat ∧ c.toNat ≤ 57 then some (c.toNat - 48)
  else if 65 ≤ c.toNat ∧ c.toNat ≤ 70 then some (c.toNat - 55)
  else if 97 ≤ c.toNat ∧ c.toNat ≤ 102 then some (c.toNat - 87)
  else none

/-- Model of the JavaScript builtin decodeURIComponent as used on matched
path segments: every %XX escape (two hexadecimal digits) is replaced by the
character with that code.  Multi-byte UTF-8 escape sequences and the URIError
thrown on malformed escapes are outside the scope of the claims; a % that is
not followed by two hexadecimal digits is emitted verbatim together with the
character after it. -/
def percentDecode : Str → Str
  | '%' :: h :: l :: rest =>
    match hexDigitVal h, hexDigitVal l with
    | some hv, some lv => Char.ofNat (16 * hv + lv) :: percentDecode rest
    | _, _ => '%' :: h :: percentDecode (l :: rest)
  | c :: rest => c :: percentDecode rest
  | [] => []

/-- First value stored under the given key in an association list, modelling
property lookup on the plain JavaScript objects used for handler maps and
schema maps. -/
def assocFind {α : Type} (k : Str) : List (Str × α) → Option α
  | [] => none
  | (k', v) :: rest => if k = k' then some v else assocFind k rest

/-! ## Route descriptors, specificity and the route-table order
(src/utils/routing.ts and Router.loadRoutes / ApiRouter.loadRoutes) -/

/-- Compiled route descriptor (RouteDefinition in src/types/index.d.ts):
the rendered URL pattern and the per-method handler map.  The handler type is
abstract; the middleware, schema and openapi attachments of a descriptor are
opaque to the routing claims and are modelled separately where a claim needs
them (the middleware chain in the Dispatch section, the schema in the
Validator section). -/
structure RouteDefinition (H : Type) where
  path : Str
  handlers : List (Str × H)
  deriving DecidableEq

/-- Embeds getRouteSpecificity (src/utils/routing.ts): splits the path on
slashes, drops empty segments, and counts the segments that do not start
with the dynamic-segment marker. -/
def getRouteSpecificity (path : Str) : Nat :=
  ((splitOnChar '/' path).filter (· ≠ [])).foldl
    (fun score segment => if startsWithChar ':' segment then score else score + 1) 0

/-- Embeds compareRoutes (src/utils/routing.ts): higher specificity first,
ties broken by localeCompare of the paths. -/
def compareRoutes {H : Type} (a b : RouteDefinition H) : Int :=
  let aSpecificity := getRouteSpecificity a.path
  let bSpecificity := getRouteSpecificity b.path
  if aSpecificity > bSpecificity then -1
  else if aSpecificity < bSpecificity then 1
  else lexCompare a.path b.path

/-- Order relation induced by the comparator, as consumed by
this.routes.sort((a, b) => compareRoutes(a, b)). -/
def routeOrder {H : Type} (a b : RouteDefinition H) : Prop :=
  compareRoutes a b ≤ 0

instance {H : Type} : DecidableRel (routeOrder (H := H)) :=
  fun a b => inferInstanceAs (Decidable (compareRoutes a b ≤ 0))

/-- Embeds the sorting step of loadRoutes (src/core/router.ts line 37,
src/core/response.ts line 182): JavaScript's stable comparator sort is
modelled by insertion sort over the comparator's order relation. -/
def sortRoutes {H : Type} (routes : List (RouteDefinition H)) : List (RouteDefinition H) :=
  List.insertionSort routeOrder routes

/-! ## Segment matching (ApiRouter.matchRoute, src/core/response.ts 364-388) -/

/-- Splits a request or route path into its nonempty segments
(path.split('/').filter(Boolean)). -/
def splitSegments (path : Str) : List Str :=
  (splitOnChar '/' path).filter (· ≠ [])

/-- Pairwise walk of matchRoute's loop: a route segment starting with ':'
always matches and binds the percent-decoded request segment under the
parameter name (the segment without its leading ':'); any other route segment
must equal the request segment exactly.  The params object is modelled as an
association list in assignment order. -/
def matchSegments : List Str → List Str → List (Str × Str) → Option (List (Str × Str))
  | [], [], params => some params
  | rSegment :: routeRest, reqSegment :: reqRest, params =>
    if startsWithChar ':' rSegment then
      matchSegments routeRest reqRest (params ++ [(rSegment.drop 1, percentDecode reqSegment)])
    else if rSegment = reqSegment then matchSegments routeRest reqRest params
    else none
  | _, _, _ => none

/-- Embeds ApiRouter.matchRoute (src/core/response.ts): reject immediately
when the segment counts differ, otherwise walk the segments pairwise. -/
def matchRoute (requestPath routePath : Str) : Option (List (Str × Str)) :=
  let reqSegments := splitSegments requestPath
  let routeSegments := splitSegments routePath
  if reqSegments.length ≠ routeSegments.length then none
  else matchSegments routeSegments reqSegments []

/-! ## Request dispatch classification (Burger.processApiRoutes,
src/index.ts 231-239, and the NOT_FOUND fallback of Burger.serve) -/

/-- Outcome of resolving one request against the route table. -/
inductive RoutingOutcome (H : Type) where
  | notFound
  | methodNotAllowed
  | handled (handler : H) (params : List (Str × Str))
  deriving DecidableEq

/-- Modelled from the spec: the pattern matcher that selects which
registered route pattern serves a request path is Bun's route table, which is
external to this repository; per section 4.3 of the spec it returns the first
descriptor in the specificity-sorted table whose pattern fully matches the
path, using exactly the repository's own matchRoute segment semantics. -/
def findMatch {H : Type} (routes : List (RouteDefinition H)) (reqPath : Str) :
    Option (RouteDefinition H × List (Str × Str)) :=
  match routes with
  | [] => none
  | route :: rest =>
    match matchRoute reqPath route.path with
    | some params => some (route, params)
    | none => findMatch rest reqPath

/-- Embeds the classification performed per request by the route closures
built in Burger.processApiRoutes (src/index.ts 231-239: a matched pattern
whose handler map lacks the request method returns METHOD_NOT_ALLOWED) and
the server fallback of Burger.serve (src/index.ts 358: NOT_FOUND when no
pattern matched). -/
def handleRequest {H : Type} (routes : List (RouteDefinition H)) (reqPath method : Str) :
    RoutingOutcome H :=
  match findMatch routes reqPath with
  | none => RoutingOutcome.notFound
  | some (route, params) =>
    match assocFind method route.handlers with
    | none => RoutingOutcome.methodNotAllowed
    | some h => RoutingOutcome.handled h params

/-! ## File-path to URL-pattern compilation
(ApiRouter.convertFilePathToRoute, src/core/response.ts 282-329;
identical logic in src/core/router.ts 102-142) -/

/-- Embeds cleanPrefix (src/utils/index.ts): strips every leading and
trailing slash from the configured route prefix. -/
def cleanApiPfx (p : Str) : Str :=
  ((p.dropWhile (· = '/')).reverse.dropWhile (· = '/')).reverse

/-- Embeds the segment loop of convertFilePathToRoute: empty segments are
skipped, grouping segments (name) are omitted, dynamic segments [name] are
rewritten to :name, and every other segment is kept literally. -/
def processSegments : List Str → List Str
  | [] => []
  | segment :: rest =>
    if segment = [] then processSegments rest
    else if startsWithChar '(' segment && endsWithChar ')' segment then processSegments rest
    else if startsWithChar '[' segment && endsWithChar ']' segment then
      (':' :: (segment.drop 1).dropLast) :: processSegments rest
    else segment :: processSegments rest

/-- Embeds convertFilePathToRoute (src/core/response.ts 282-329): drop the
trailing "route.ts", split on the path separator, process the segments,
prepend a leading slash and the cleaned prefix (when one is configured), and
strip a trailing slash unless the route is the root. -/
def convertFilePathToRoute (pfx filePath : Str) : Str :=
  let fp :=
    if "route.ts".data.isSuffixOf filePath then filePath.take (filePath.length - 8)
    else filePath
  let segments := splitOnChar '/' fp
  let resultSegments := processSegments segments
  let route := '/' :: (resultSegments.intersperse ['/']).flatten
  let route := if pfx ≠ [] then '/' :: cleanApiPfx pfx ++ route else route
  if route ≠ ['/'] ∧ endsWithChar '/' route then route.dropLast else route

/-! ## Directory scanning (ApiRouter.scanDirectory / loadRouteModule,
src/core/response.ts 196-274; identical structure in src/core/router.ts
45-94) -/

/-- Entry of the route directory tree handed to the scanner: a subdirectory
with its own entries, or a file whose module exports are the association
list from export name to handler capability. -/
inductive FsEntry (H : Type) where
  | directory (name : Str) (entries : List (FsEntry H))
  | file (name : Str) (exports : List (Str × H))

/-- Recognizes a dynamic route directory: name starts with '[' and ends
with ']'. -/
def isDynamicDir (name : Str) : Bool :=
  startsWithChar '[' name && endsWithChar ']' name

/-- Model of path.join for the relative paths built during the scan. -/
def joinPath (base name : Str) : Str :=
  if base = [] then name else base ++ '/' :: name

/-- Error message thrown on a second dynamic sibling
(src/core/response.ts 216-218). -/
def dynConflictMsg (name : Str) : Str :=
  "Multiple dynamic route folders found in the same directory: ".data ++ name

/-- Fixed list of HTTP method names whose exports become handlers
(HTTP_METHODS in src/utils/routing.ts). -/
def HTTP_METHODS : List Str :=
  ["GET".data, "POST".data, "PUT".data, "DELETE".data, "PATCH".data,
   "HEAD".data, "OPTIONS".data]

/-- Embeds the handler-collection loop of loadRouteModule
(src/core/response.ts 253-257): for each supported method name, an export
under that name becomes the method's handler; other exports are ignored. -/
def collectHandlers {H : Type} (exports : List (Str × H)) : List (Str × H) :=
  HTTP_METHODS.filterMap (fun method => (assocFind method exports).map (fun h => (method, h)))

/-- Embeds ApiRouter.scanDirectory (src/core/response.ts 196-233) together
with loadRouteModule: walks the entries of one directory in order, tracking
with dynamicFolderFound whether a dynamic sibling was already seen at this
level; a second dynamic sibling raises the configuration error, which
propagates outward and aborts the whole scan; a route.ts file contributes a
route descriptor; subdirectories are scanned recursively with a fresh flag. -/
def scanList {H : Type} (pfx basePath : Str) (dynamicFolderFound : Bool) :
    List (FsEntry H) → Except Str (List (RouteDefinition H))
  | [] => Except.ok []
  | FsEntry.directory name sub :: rest =>
    if isDynamicDir name then
      if dynamicFolderFound then Except.error (dynConflictMsg name)
      else
        match scanList pfx (joinPath basePath name) false sub with
        | Except.error e => Except.error e
        | Except.ok inner =>
          match scanList pfx basePath true rest with
          | Except.error e => Except.error e
          | Except.ok outer => Except.ok (inner ++ outer)
    else
      match scanList pfx (joinPath basePath name) false sub with
      | Except.error e => Except.error e
      | Except.ok inner =>
        match scanList pfx basePath dynamicFolderFound rest with
        | Except.error e => Except.error e
        | Except.ok outer => Except.ok (inner ++ outer)
  | FsEntry.file name exports :: rest =>
    if name = "route.ts".data then
      match scanList pfx basePath dynamicFolderFound rest with
      | Except.error e => Except.error e
      | Except.ok outer =>
        Except.ok ({ path := convertFilePathToRoute pfx (joinPath basePath name),
                     handlers := collectHandlers exports } :: outer)
    else scanList pfx basePath dynamicFolderFound rest

/-- Embeds ApiRouter.loadRoutes (src/core/response.ts 177-188): scan the root
directory, then sort the collected routes; a scan error propagates and no
route table is produced. -/
def loadRoutes {H : Type} (pfx : Str) (root : List (FsEntry H)) :
    Except Str (List (RouteDefinition H)) :=
  match scanList pfx [] false root with
  | Except.error e => Except.error ("Failed to load routes: ".data ++ e)
  | Except.ok routes => Except.ok (sortRoutes routes)

/-! ## Middleware dispatch (Burger.processMiddleware, src/index.ts 265-334)

Per-request mutable state (the request object the middlewares mutate) is
modelled by an explicit state of abstract type σ threaded through every
middleware, transform and handler; Resp is the abstract response type. -/

/-- Three-outcome middleware contract (BurgerNext in src/types/index.d.ts):
a middleware returns a finished response, a response-transform function, or
undefined to continue. -/
inductive MwResult (σ R : Type) where
  | response (r : R)
  | transform (f : σ → R → σ × R)
  | next

/-- Middleware of the precomputed chain: reads and updates the request state
and returns one of the three outcomes. -/
abbrev Middleware (σ R : Type) := σ → σ × MwResult σ R

/-- Terminal handler: produces the response from the request state. -/
abbrev Handler (σ R : Type) := σ → σ × R

/-- Applies the collected transform functions front to back, threading the
state.  processMiddleware pushes transforms onto the front of this list, so
running it front to back applies the transforms in reverse order of
registration, exactly like the backwards afterStack loop of the source
(src/index.ts 328-330). -/
def runAfter {σ R : Type} : List (σ → R → σ × R) → σ → R → σ × R
  | [], s, r => (s, r)
  | f :: rest, s, r =>
    let p := f s r
    runAfter rest p.1 p.2

/-- Forward traversal of processMiddleware (src/index.ts 299-333): run each
middleware in order; a response short-circuits immediately; a transform is
pushed onto the after-stack; when the cursor is exhausted, invoke the handler
and apply the collected transforms. -/
def processLoop {σ R : Type} :
    List (Middleware σ R) → List (σ → R → σ × R) → Handler σ R → σ → σ × R
  | [], afterStack, handler, s =>
    let p := handler s
    runAfter afterStack p.1 p.2
  | mw :: rest, afterStack, handler, s =>
    match mw s with
    | (s', MwResult.response r) => (s', r)
    | (s', MwResult.transform f) => processLoop rest (f :: afterStack) handler s'
    | (s', MwResult.next) => processLoop rest afterStack handler s'

/-- Embeds Burger.processMiddleware (src/index.ts 265-334), including the
dedicated fast path for a single-element middleware chain (lines 274-287);
the afterCount = 0 and afterCount = 1 fast paths of the source coincide
definitionally with the general loop. -/
def processMiddleware {σ R : Type}
    (middlewares : List (Middleware σ R)) (handler : Handler σ R) (s : σ) : σ × R :=
  match middlewares with
  | [mw] =>
    match mw s with
    | (s', MwResult.response r) => (s', r)
    | (s', MwResult.transform f) =>
      let p := handler s'
      f p.1 p.2
    | (s', MwResult.next) => handler s'
  | mws => processLoop mws [] handler s

/-- Forward traversal without dispatch, collecting in registration order the
transform functions of the middlewares that ran; none when some middleware
short-circuits with a response. -/
def forwardCollect {σ R : Type} :
    List (Middleware σ R) → σ → Option (σ × List (σ → R → σ × R))
  | [], s => some (s, [])
  | mw :: rest, s =>
    match mw s with
    | (_, MwResult.response _) => none
    | (s', MwResult.transform f) =>
      (forwardCollect rest s').map (fun p => (p.1, f :: p.2))
    | (s', MwResult.next) => forwardCollect rest s'

/-! ## Validation middleware (createValidationMiddleware,
src/middleware/validator.ts)

The schema validators (zod in the source) are opaque parse capabilities:
functions from a JSON-like value to success-with-data or
failure-with-structured-error.  Error details are modelled as strings. -/

/-- JSON-like values: the parsed request body, the params object and the
query-parameter object handed to the validators. -/
inductive JValue where
  | null
  | bool (b : Bool)
  | num (n : Int)
  | str (s : Str)
  | arr (elems : List JValue)
  | obj (fields : List (Str × JValue))

/-- Result of an opaque validator's safeParse: success carries the
parsed/coerced data, failure carries the structured error detail. -/
inductive ParseResult where
  | success (data : JValue)
  | failure (error : Str)

/-- Opaque validator capability (schema-validator internals are out of
scope; only parse(value) -> success|failure is consumed). -/
abbrev Validator := JValue → ParseResult

/-- Per-method schema (RouteSchema entry in src/types/index.d.ts): up to
three validators, for params, query and body. -/
structure MethodSchema where
  paramsV : Option Validator
  queryV : Option Validator
  bodyV : Option Validator

/-- Route schema: per-method schemas keyed by lowercase method name. -/
abbrev RouteSchema := List (Str × MethodSchema)

/-- Validated namespace attached to the request on success
(req.validated). -/
structure ValidatedData where
  paramsD : Option JValue
  queryD : Option JValue
  bodyD : Option JValue

/-- Slice of the request state read and written by the validation
middleware.  jsonBody models await req.json(): the parsed JSON body, or the
error thrown on unparsable input. -/
structure VRequest where
  method : Str
  searchParams : List (Str × Str)
  contentType : Option Str
  params : Option JValue
  validated : Option ValidatedData
  jsonBody : Except Str JValue

/-- One accumulated field failure ({field, error} in the errors array). -/
structure FieldError where
  field : Str
  error : Str
  deriving DecidableEq

/-- Outcome of one run of the validation middleware: a short-circuit
Response.json({errors}, {status}) — the errors list has one slot per cell of
the pre-allocated array, a none slot being a hole that serializes as JSON
null — or continuation to the next middleware with the possibly updated
request. -/
inductive VOutcome where
  | short (status : Nat) (errors : List (Option FieldError))
  | next (req : VRequest)

/-- Result of a run plus the instrumentation log of which validators were
invoked (safeParse calls), in order, for claims about validators not
running. -/
structure VRun where
  outcome : VOutcome
  calls : List Str

/-- Intermediate mutable state of one validation run: the accumulated error
records in assignment order, the validated object under construction, the
invocation log, and the body cache (req.json overridden to the parsed value
after a successful body validation). -/
structure VState where
  errors : List FieldError
  validated : ValidatedData
  calls : List Str
  jsonBody : Except Str JValue

/-- Tests whether the Content-Type header indicates JSON:
req.headers.get('Content-Type')?.includes('application/json'), with a
missing header giving undefined, hence false. -/
def ctIncludesJson (contentType : Option Str) : Bool :=
  match contentType with
  | some ct => decide ("application/json".data <:+: ct)
  | none => false

/-- Embeds the params block of createValidationMiddleware
(src/middleware/validator.ts 52-66): runs only when a params validator is
declared and req.params is present; success stores validated.params, failure
records a params field error. -/
def validateParamsStep (ms : MethodSchema) (req : VRequest) (st : VState) : VState :=
  match ms.paramsV, req.params with
  | some pv, some p =>
    match pv p with
    | ParseResult.success d =>
      { st with validated := { st.validated with paramsD := some d },
                calls := st.calls ++ ["params".data] }
    | ParseResult.failure e =>
      { st with errors := st.errors ++ [⟨"params".data, e⟩],
                calls := st.calls ++ ["params".data] }
  | _, _ => st

/-- Query-parameter object handed to the query validator:
Object.fromEntries(url.searchParams.entries()), the empty object when the
URL has no query string. -/
def queryObject (searchParams : List (Str × Str)) : JValue :=
  JValue.obj (searchParams.map (fun kv => (kv.1, JValue.str kv.2)))

/-- Embeds the query block of createValidationMiddleware
(src/middleware/validator.ts 68-86): runs whenever a query validator is
declared, on the object built from the URL's search parameters. -/
def validateQueryStep (ms : MethodSchema) (req : VRequest) (st : VState) : VState :=
  match ms.queryV with
  | some qv =>
    match qv (queryObject req.searchParams) with
    | ParseResult.success d =>
      { st with validated := { st.validated with queryD := some d },
                calls := st.calls ++ ["query".data] }
    | ParseResult.failure e =>
      { st with errors := st.errors ++ [⟨"query".data, e⟩],
                calls := st.calls ++ ["query".data] }
  | none => st

/-- Embeds the body block of createValidationMiddleware
(src/middleware/validator.ts 88-115): runs only when a body validator is
declared and the Content-Type indicates JSON; a failed req.json() parse is
recorded as a body error without invoking the validator; a successful
validation stores validated.body and caches the parsed value as the result
of later req.json() calls. -/
def validateBodyStep (ms : MethodSchema) (req : VRequest) (st : VState) : VState :=
  match ms.bodyV, ctIncludesJson req.contentType with
  | some bv, true =>
    match req.jsonBody with
    | Except.ok bodyData =>
      match bv bodyData with
      | ParseResult.success d =>
        { st with validated := { st.validated with bodyD := some d },
                  calls := st.calls ++ ["body".data],
                  jsonBody := Except.ok d }
      | ParseResult.failure e =>
        { st with errors := st.errors ++ [⟨"body".data, e⟩],
                  calls := st.calls ++ ["body".data] }
    | Except.error e =>
      { st with errors := st.errors ++ [⟨"body".data, e⟩] }
  | _, _ => st

/-- Embeds createValidationMiddleware (src/middleware/validator.ts): skip
when the request already carries a validated namespace; skip when no schema
is declared for the request method; otherwise run the three validation
blocks in order and either short-circuit with the 400 error response — whose
errors array is the pre-allocated three-slot array, holes serializing as
null — or attach the validated data and continue. -/
def createValidationMiddleware (schema : RouteSchema) (req : VRequest) : VRun :=
  if req.validated.isSome then ⟨VOutcome.next req, []⟩
  else
    match assocFind (toLowerStr req.method) schema with
    | none => ⟨VOutcome.next req, []⟩
    | some methodSchema =>
      let st := validateBodyStep methodSchema req
                  (validateQueryStep methodSchema req
                    (validateParamsStep methodSchema req ⟨[], ⟨none, none, none⟩, [], req.jsonBody⟩))
      if st.errors.length > 0 then
        ⟨VOutcome.short 400
          (st.errors.map some ++ List.replicate (3 - st.errors.length) none),
         st.calls⟩
      else
        ⟨VOutcome.next { req with validated := some st.validated, jsonBody := st.jsonBody },
         st.calls⟩

/-- Field failures of the params slice: one record when a params validator
is declared, req.params is present, and the validator fails. -/
def paramsFailures (ms : MethodSchema) (req : VRequest) : List FieldError :=
  match ms.paramsV, req.params with
  | some pv, some p =>
    match pv p with
    | ParseResult.success _ => []
    | ParseResult.failure e => [⟨"params".data, e⟩]
  | _, _ => []

/-- Field failures of the query slice: one record when a query validator is
declared and fails on the query-parameter object. -/
def queryFailures (ms : MethodSchema) (req : VRequest) : List FieldError :=
  match ms.queryV with
  | some qv =>
    match qv (queryObject req.searchParams) with
    | ParseResult.success _ => []
    | ParseResult.failure e => [⟨"query".data, e⟩]
  | none => []

/-- Field failures of the body slice: one record when a body validator is
declared under a JSON content type and either req.json() throws or the
validator fails. -/
def bodyFailures (ms : MethodSchema) (req : VRequest) : List FieldError :=
  match ms.bodyV, ctIncludesJson req.contentType with
  | some bv, true =>
    match req.jsonBody with
    | Except.ok bodyData =>
      match bv bodyData with
      | ParseResult.success _ => []
      | ParseResult.failure e => [⟨"body".data, e⟩]
    | Except.error e => [⟨"body".data, e⟩]
  | _, _ => []

/-- Spec-side description of the accumulated field failures, written from
the spec's words (section 4.5): one error record per failing slice, in the
order params, query, body.  Used to compare the source middleware's 400
payload against the spec. -/
def specFieldFailures (ms : MethodSchema) (req : VRequest) : List FieldError :=
  paramsFailures ms req ++ queryFailures ms req ++ bodyFailures ms req

/-- The three validation blocks run in source order on the initial run
state. -/
def runValidationSteps (ms : MethodSchema) (req : VRequest) : VState :=
  validateBodyStep ms req
    (validateQueryStep ms req
      (validateParamsStep ms req ⟨[], ⟨none, none, none⟩, [], req.jsonBody⟩))

/-! ## Concrete fixtures used by witnesses and counterexamples -/

/-- Request whose validated namespace is already populated. -/
def reqAlreadyValidated : VRequest :=
  { method := "GET".data, searchParams := [], contentType := none,
    params := none, validated := some ⟨none, none, none⟩,
    jsonBody := Except.error "no body".data }

/-- Method schema declaring only a query validator that requires a search
field (fails on any object without it, in particular on the empty object). -/
def msRequiredQuery : MethodSchema :=
  { paramsV := none,
    queryV := some (fun v =>
      match v with
      | JValue.obj [] => ParseResult.failure "search: Required".data
      | other => ParseResult.success other),
    bodyV := none }

/-- Schema attaching msRequiredQuery to GET. -/
def schemaRequiredQuery : RouteSchema := [("get".data, msRequiredQuery)]

/-- GET request with no query string, no params object, not yet validated. -/
def reqNoQuery : VRequest :=
  { method := "GET".data, searchParams := [], contentType := none,
    params := none, validated := none,
    jsonBody := Except.error "no body".data }

/-- Method schema declaring only a body validator (its verdict is irrelevant
to the content-type claim; it rejects everything). -/
def msBodyOnly : MethodSchema :=
  { paramsV := none, queryV := none,
    bodyV := some (fun _ => ParseResult.failure "invalid body".data) }

/-- Schema attaching msBodyOnly to GET. -/
def schemaBodyOnly : RouteSchema := [("get".data, msBodyOnly)]

/-- Request for a body-validated route carrying Content-Type text/plain. -/
def reqTextPlain : VRequest :=
  { method := "GET".data, searchParams := [], contentType := some "text/plain".data,
    params := none, validated := none,
    jsonBody := Except.ok (JValue.obj []) }

/-- Body validator modelling a schema with required fields name and price:
it fails on the empty object with a single structured error mentioning both
missing fields, as zod's safeParse does. -/
def vNamePrice : Validator := fun v =>
  match v with
  | JValue.obj [] => ParseResult.failure "name: Required; price: Required".data
  | other => ParseResult.success other

/-- Method schema declaring only the name/price body validator, on POST. -/
def msNamePrice : MethodSchema :=
  { paramsV := none, queryV := none, bodyV := some vNamePrice }

/-- Schema attaching msNamePrice to POST. -/
def schemaNamePrice : RouteSchema := [("post".data, msNamePrice)]

/-- POST request with JSON content type and empty object body. -/
def reqEmptyBody : VRequest :=
  { method := "POST".data, searchParams := [],
    contentType := some "application/json".data,
    params := none, validated := none,
    jsonBody := Except.ok (JValue.obj []) }

/-- Route table registering only GET on /x. -/
def xOnlyTable : List (RouteDefinition Unit) :=
  [{ path := "/x".data, handlers := [("GET".data, ())] }]

/-- The static descriptor /product/featured with a GET handler. -/
def featuredRoute : RouteDefinition Unit :=
  { path := "/product/featured".data, handlers := [("GET".data, ())] }

/-- The parameterized descriptor /product/:id with a GET handler. -/
def idRoute : RouteDefinition Unit :=
  { path := "/product/:id".data, handlers := [("GET".data, ())] }

/-- Table containing the dynamic route before the static one, as a loader
might have produced it before sorting. -/
def productTable : List (RouteDefinition Unit) := [idRoute, featuredRoute]

/-- First-registered transform: leaves the state, adds one to the
response. -/
def trA : Nat → Nat → Nat × Nat := fun st r => (st, r + 1)

/-- Last-registered transform: leaves the state, doubles the response. -/
def trB : Nat → Nat → Nat × Nat := fun st r => (st, 2 * r)

/-- Middleware registering trA and bumping the state by one. -/
def mwA : Middleware Nat Nat := fun s => (s + 1, MwResult.transform trA)

/-- Middleware registering trB and bumping the state by two. -/
def mwB : Middleware Nat Nat := fun s => (s + 2, MwResult.transform trB)

/-- Middleware that short-circuits with response 7, bumping the state by
one hundred. -/
def mwShort : Middleware Nat Nat := fun s => (s + 100, MwResult.response 7)

/-- Middleware after the short-circuit; would bump the state by a thousand
if it ever ran. -/
def mwLate : Middleware Nat Nat := fun s => (s + 1000, MwResult.next)

/-- Handler for the dispatch witnesses: would bump the state by ten
thousand and answer 5. -/
def hdl : Handler Nat Nat := fun s => (s + 10000, 5)

/-- Handler variant that leaves the state unchanged, for the transform
ordering witness. -/
def hdlPure : Handler Nat Nat := fun s => (s, 5)

/-- Directory tree with two dynamic sibling directories at top level. -/
def conflictTree : List (FsEntry Unit) :=
  [FsEntry.directory "[a]".data [], FsEntry.directory "[b]".data []]

/-- Parameter bindings of a successful match, in assignment order: each
route segment starting with ':' binds the percent-decoded request segment
under the segment name without its leading ':'; literal segments bind
nothing. -/
def paramBindings (routeSegments reqSegments : List Str) : List (Str × Str) :=
  (routeSegments.zip reqSegments).filterMap (fun p =>
    if startsWithChar ':' p.1 then some (p.1.drop 1, percentDecode p.2) else none)

/-- Conflict shape ruled out by the scanner: some directory level of the
tree contains two dynamic sibling directories (possibly nested below any
chain of directories). -/
inductive HasDynConflict {H : Type} : List (FsEntry H) → Prop where
  | here (l1 : List (FsEntry H)) (n1 : Str) (s1 : List (FsEntry H)) (l2 : List (FsEntry H))
      (n2 : Str) (s2 : List (FsEntry H)) (l3 : List (FsEntry H))
      (h1 : isDynamicDir n1 = true) (h2 : isDynamicDir n2 = true) :
      HasDynConflict (l1 ++ FsEntry.directory n1 s1 :: (l2 ++ FsEntry.directory n2 s2 :: l3))
  | inSub (l1 : List (FsEntry H)) (name : Str) (sub : List (FsEntry H)) (l2 : List (FsEntry H))
      (h : HasDynConflict sub) : HasDynConflict (l1 ++ FsEntry.directory name sub :: l2)

/-! # Helper lemmas about the validation blocks -/

theorem validateParamsStep_skip (ms : MethodSchema) (req : VRequest) (st : VState)
    (h : req.params = none) : validateParamsStep ms req st = st := by
  unfold validateParamsStep
  rw [h]
  cases ms.paramsV <;> rfl

theorem validateParamsStep_errors (ms : MethodSchema) (req : VRequest) (st : VState) :
    (validateParamsStep ms req st).errors = st.errors ++ paramsFailures ms req := by
  unfold validateParamsStep paramsFailures
  cases ms.paramsV with
  | none => simp
  | some pv =>
    cases req.params with
    | none => simp
    | some p => cases h : pv p <;> simp [h]

theorem validateQueryStep_errors (ms : MethodSchema) (req : VRequest) (st : VState) :
    (validateQueryStep ms req st).errors = st.errors ++ queryFailures ms req := by
  unfold validateQueryStep queryFailures
  cases ms.queryV with
  | none => simp
  | some qv => cases h : qv (queryObject req.searchParams) <;> simp [h]

theorem validateBodyStep_errors (ms : MethodSchema) (req : VRequest) (st : VState) :
    (validateBodyStep ms req st).errors = st.errors ++ bodyFailures ms req := by
  unfold validateBodyStep bodyFailures
  cases ms.bodyV with
  | none => simp
  | some bv =>
    cases hct : ctIncludesJson req.contentType with
    | false => simp
    | true =>
      cases req.jsonBody with
      | error e => simp
      | ok bodyData => cases h : bv bodyData <;> simp [h]

theorem runValidationSteps_errors (ms : MethodSchema) (req : VRequest) :
    (runValidationSteps ms req).errors = specFieldFailures ms req := by
  unfold runValidationSteps specFieldFailures
  rw [validateBodyStep_errors, validateQueryStep_errors, validateParamsStep_errors]
  simp

theorem validateParamsStep_calls (ms : MethodSchema) (req : VRequest) (st : VState) :
    ∃ extra, (validateParamsStep ms req st).calls = st.calls ++ extra ∧
      ∀ x ∈ extra, x = "params".data := by
  unfold validateParamsStep
  cases ms.paramsV with
  | none => exact ⟨[], by simp⟩
  | some pv =>
    cases req.params with
    | none => exact ⟨[], by simp⟩
    | some p =>
      cases h : pv p with
      | success d => exact ⟨["params".data], by simp [h]⟩
      | failure e => exact ⟨["params".data], by simp [h]⟩

theorem validateQueryStep_calls (ms : MethodSchema) (req : VRequest) (st : VState) :
    ∃ extra, (validateQueryStep ms req st).calls = st.calls ++ extra ∧
      ∀ x ∈ extra, x = "query".data := by
  unfold validateQueryStep
  cases ms.queryV with
  | none => exact ⟨[], by simp⟩
  | some qv =>
    cases h : qv (queryObject req.searchParams) with
    | success d => exact ⟨["query".data], by simp [h]⟩
    | failure e => exact ⟨["query".data], by simp [h]⟩

theorem validateQueryStep_calls_declared (ms : MethodSchema) (req : VRequest) (st : VState)
    (qv : Validator) (h : ms.queryV = some qv) :
    (validateQueryStep ms req st).calls = st.calls ++ ["query".data] := by
  unfold validateQueryStep
  rw [h]
  cases hq : qv (queryObject req.searchParams) <;> simp [hq]

theorem validateBodyStep_calls (ms : MethodSchema) (req : VRequest) (st : VState) :
    ∃ extra, (validateBodyStep ms req st).calls = st.calls ++ extra ∧
      ∀ x ∈ extra, x = "body".data := by
  unfold validateBodyStep
  cases ms.bodyV with
  | none => exact ⟨[], by simp⟩
  | some bv =>
    cases hct : ctIncludesJson req.contentType with
    | false => exact ⟨[], by simp⟩
    | true =>
      cases req.jsonBody with
      | error e => exact ⟨[], by simp⟩
      | ok bodyData =>
        cases h : bv bodyData with
        | success d => exact ⟨["body".data], by simp [h]⟩
        | failure e => exact ⟨["body".data], by simp [h]⟩

theorem validateQueryStep_paramsD (ms : MethodSchema) (req : VRequest) (st : VState) :
    (validateQueryStep ms req st).validated.paramsD = st.validated.paramsD := by
  unfold validateQueryStep
  cases ms.queryV with
  | none => rfl
  | some qv => cases h : qv (queryObject req.searchParams) <;> simp [h]

theorem validateBodyStep_paramsD (ms : MethodSchema) (req : VRequest) (st : VState) :
    (validateBodyStep ms req st).validated.paramsD = st.validated.paramsD := by
  unfold validateBodyStep
  cases ms.bodyV with
  | none => rfl
  | some bv =>
    cases hct : ctIncludesJson req.contentType with
    | false => rfl
    | true =>
      cases req.jsonBody with
      | error e => simp
      | ok bodyData => cases h : bv bodyData <;> simp [h]

theorem paramsFailures_of_no_params (ms : MethodSchema) (req : VRequest)
    (h : req.params = none) : paramsFailures ms req = [] := by
  unfold paramsFailures
  rw [h]
  cases ms.paramsV <;> rfl

theorem queryFailures_fields (ms : MethodSchema) (req : VRequest) :
    ∀ fe ∈ queryFailures ms req, fe.field = "query".data := by
  unfold queryFailures
  cases ms.queryV with
  | none => simp
  | some qv => cases h : qv (queryObject req.searchParams) <;> simp [h]

theorem bodyFailures_fields (ms : MethodSchema) (req : VRequest) :
    ∀ fe ∈ bodyFailures ms req, fe.field = "body".data := by
  unfold bodyFailures
  cases ms.bodyV with
  | none => simp
  | some bv =>
    cases hct : ctIncludesJson req.contentType with
    | false => simp
    | true =>
      cases req.jsonBody with
      | error e => simp
      | ok bodyData => cases h : bv bodyData <;> simp [h]

theorem validateBodyStep_skip (ms : MethodSchema) (req : VRequest) (st : VState)
    (h : ctIncludesJson req.contentType = false) : validateBodyStep ms req st = st := by
  unfold validateBodyStep
  rw [h]
  cases ms.bodyV <;> rfl

theorem bodyFailures_of_nonjson (ms : MethodSchema) (req : VRequest)
    (h : ctIncludesJson req.contentType = false) : bodyFailures ms req = [] := by
  unfold bodyFailures
  rw [h]
  cases ms.bodyV <;> rfl

theorem paramsFailures_fields (ms : MethodSchema) (req : VRequest) :
    ∀ fe ∈ paramsFailures ms req, fe.field = "params".data := by
  unfold paramsFailures
  cases ms.paramsV with
  | none => simp
  | some pv =>
    cases req.params with
    | none => simp
    | some p => cases h : pv p <;> simp [h]

theorem createValidationMiddleware_run (schema : RouteSchema) (ms : MethodSchema)
    (req : VRequest) (hv : req.validated = none)
    (hs : assocFind (toLowerStr req.method) schema = some ms) :
    createValidationMiddleware schema req =
      (if (runValidationSteps ms req).errors.length > 0 then
        ⟨VOutcome.short 400
          ((runValidationSteps ms req).errors.map some ++
            List.replicate (3 - (runValidationSteps ms req).errors.length) none),
         (runValidationSteps ms req).calls⟩
      else
        ⟨VOutcome.next { req with
            validated := some (runValidationSteps ms req).validated
            jsonBody := (runValidationSteps ms req).jsonBody },
         (runValidationSteps ms req).calls⟩) := by
  unfold createValidationMiddleware runValidationSteps
  rw [hv, hs]
  rfl

/-! # Claim theorems -/

/-- C9: if the request's validated namespace is already populated when the
validation middleware runs, the middleware continues without invoking any
declared validator — the run is a continue with the request untouched and an
empty validator-invocation log, for every schema — so re-invoking the
pipeline on an already-validated request leaves every underlying validator's
call count unchanged (idempotent re-entry). -/
theorem validated_reentry_skips_validators (schema : RouteSchema) (req : VRequest)
    (h : req.validated.isSome = true) :
    createValidationMiddleware schema req = ⟨VOutcome.next req, []⟩ := by
  simp [createValidationMiddleware, h]

/-- Witness: the re-entry guard at a concrete request whose validated
namespace is populated. -/
theorem validated_reentry_skips_validators_witness :
    reqAlreadyValidated.validated.isSome = true ∧
    createValidationMiddleware schemaRequiredQuery reqAlreadyValidated =
      ⟨VOutcome.next reqAlreadyValidated, []⟩ :=
  ⟨rfl, validated_reentry_skips_validators schemaRequiredQuery reqAlreadyValidated rfl⟩

/-- C10: with no prior validation and a schema entry for the request method,
a declared query validator is always invoked (it enters the call log); when
the request URL has no query string the validator receives the empty object,
so a validator rejecting the empty object produces a 400 citing a query
field error; whereas a declared params validator is skipped entirely
whenever the request carries no params object: it is never invoked, no
params field failure is recorded, and on continuation the validated
namespace carries no params entry. -/
theorem query_always_run_params_skipped (schema : RouteSchema) (ms : MethodSchema)
    (req : VRequest) (hv : req.validated = none)
    (hs : assocFind (toLowerStr req.method) schema = some ms) :
    (∀ qv, ms.queryV = some qv →
        "query".data ∈ (createValidationMiddleware schema req).calls) ∧
    (∀ qv e, ms.queryV = some qv → req.searchParams = [] →
        qv (JValue.obj []) = ParseResult.failure e →
        ∃ errs, (createValidationMiddleware schema req).outcome = VOutcome.short 400 errs ∧
          some (⟨"query".data, e⟩ : FieldError) ∈ errs) ∧
    (req.params = none →
        ("params".data ∉ (createValidationMiddleware schema req).calls) ∧
        (∀ s errs fe, (createValidationMiddleware schema req).outcome = VOutcome.short s errs →
            some fe ∈ errs → fe.field ≠ "params".data) ∧
        (∀ req', (createValidationMiddleware schema req).outcome = VOutcome.next req' →
            ∃ vd, req'.validated = some vd ∧ vd.paramsD = none)) := by
  rw [createValidationMiddleware_run schema ms req hv hs]
  refine ⟨?_, ?_, ?_⟩
  · intro qv hq
    have hcalls : "query".data ∈ (runValidationSteps ms req).calls := by
      unfold runValidationSteps
      obtain ⟨be, hbe, _⟩ := validateBodyStep_calls ms req
        (validateQueryStep ms req
          (validateParamsStep ms req ⟨[], ⟨none, none, none⟩, [], req.jsonBody⟩))
      rw [hbe, validateQueryStep_calls_declared ms req _ qv hq]
      simp
    split <;> simpa using hcalls
  · intro qv e hq hsp hfail
    have hqf : queryFailures ms req = [⟨"query".data, e⟩] := by
      unfold queryFailures
      rw [hq]
      simp [queryObject, hsp, hfail]
    have hmem : (⟨"query".data, e⟩ : FieldError) ∈ (runValidationSteps ms req).errors := by
      rw [runValidationSteps_errors]
      unfold specFieldFailures
      rw [hqf]
      simp
    have hlen : (runValidationSteps ms req).errors.length > 0 :=
      List.length_pos.mpr (List.ne_nil_of_mem hmem)
    rw [if_pos hlen]
    exact ⟨_, rfl, List.mem_append_left _ (List.mem_map_of_mem some hmem)⟩
  · intro hp
    have hskip : validateParamsStep ms req ⟨[], ⟨none, none, none⟩, [], req.jsonBody⟩ =
        ⟨[], ⟨none, none, none⟩, [], req.jsonBody⟩ :=
      validateParamsStep_skip ms req _ hp
    have hcalls : "params".data ∉ (runValidationSteps ms req).calls := by
      unfold runValidationSteps
      rw [hskip]
      obtain ⟨qe, hqe, hqall⟩ := validateQueryStep_calls ms req
        ⟨[], ⟨none, none, none⟩, [], req.jsonBody⟩
      obtain ⟨be, hbe, hball⟩ := validateBodyStep_calls ms req
        (validateQueryStep ms req ⟨[], ⟨none, none, none⟩, [], req.jsonBody⟩)
      rw [hbe, hqe]
      intro hmem
      rcases List.mem_append.mp hmem with hmem' | hmem'
      · rcases List.mem_append.mp hmem' with hmem'' | hmem''
        · simp at hmem''
        · have := hqall _ hmem''
          simp_all
      · have := hball _ hmem'
        simp_all
    have hfields : ∀ fe ∈ (runValidationSteps ms req).errors, fe.field ≠ "params".data := by
      intro fe hfe
      rw [runValidationSteps_errors] at hfe
      unfold specFieldFailures at hfe
      rw [paramsFailures_of_no_params ms req hp] at hfe
      simp only [List.nil_append, List.mem_append] at hfe
      rcases hfe with hfe | hfe
      · rw [queryFailures_fields ms req fe hfe]
        decide
      · rw [bodyFailures_fields ms req fe hfe]
        decide
    have hparamsD : (runValidationSteps ms req).validated.paramsD = none := by
      unfold runValidationSteps
      rw [validateBodyStep_paramsD, validateQueryStep_paramsD, hskip]
    refine ⟨?_, ?_, ?_⟩
    · split <;> simpa using hcalls
    · intro s errs fe houtcome hmem
      split at houtcome
      · simp only [VOutcome.short.injEq] at houtcome
        rw [← houtcome.2] at hmem
        rcases List.mem_append.mp hmem with hmem' | hmem'
        · obtain ⟨fe', hfe', heq⟩ := List.mem_map.mp hmem'
          have hfe : fe' = fe := Option.some.inj heq
          exact hfe ▸ hfields fe' hfe'
        · have := List.eq_of_mem_replicate hmem'
          simp at this
      · simp at houtcome
    · intro req' houtcome
      split at houtcome
      · simp at houtcome
      · simp only [VOutcome.next.injEq] at houtcome
        refine ⟨(runValidationSteps ms req).validated, ?_, hparamsD⟩
        rw [← houtcome]

/-- Witness: query validation at a concrete GET request without a query
string against a schema requiring a search field and declaring no params
validator: the pipeline yields the 400 citing the query field, and the
params slice contributes no validator call. -/
theorem query_always_run_params_skipped_witness :
    (∃ errs, (createValidationMiddleware schemaRequiredQuery reqNoQuery).outcome =
        VOutcome.short 400 errs ∧
        some (⟨"query".data, "search: Required".data⟩ : FieldError) ∈ errs) ∧
    "params".data ∉ (createValidationMiddleware schemaRequiredQuery reqNoQuery).calls := by
  have h := query_always_run_params_skipped schemaRequiredQuery msRequiredQuery reqNoQuery
    rfl rfl
  exact ⟨h.2.1 _ _ rfl rfl rfl, (h.2.2 rfl).1⟩

/-- C4 counterexample: a route declaring a body validator, invoked with
Content-Type text/plain, yields neither a 400 nor any body field failure:
the run continues to the next middleware (attaching an empty validated
namespace) with an empty validator-invocation log — body validation is
silently skipped, refuting the claim at this concrete input. -/
theorem nonjson_body_not_rejected :
    createValidationMiddleware schemaBodyOnly reqTextPlain =
      ⟨VOutcome.next { reqTextPlain with validated := some ⟨none, none, none⟩ }, []⟩ := by
  rfl

/-- C4 amended: if a body validator is declared but the request's
Content-Type does not indicate JSON, body validation is skipped silently:
the body validator is never invoked, no body field failure is recorded (the
mismatch is neither a thrown exception nor a recorded failure), and when the
params and query slices contribute no failures the middleware continues
rather than returning 400. -/
theorem nonjson_body_skipped (schema : RouteSchema) (ms : MethodSchema) (req : VRequest)
    (hv : req.validated = none)
    (hs : assocFind (toLowerStr req.method) schema = some ms)
    (hct : ctIncludesJson req.contentType = false) :
    ("body".data ∉ (createValidationMiddleware schema req).calls) ∧
    (∀ s errs fe, (createValidationMiddleware schema req).outcome = VOutcome.short s errs →
        some fe ∈ errs → fe.field ≠ "body".data) ∧
    (paramsFailures ms req = [] → queryFailures ms req = [] →
        ∃ req', (createValidationMiddleware schema req).outcome = VOutcome.next req') := by
  rw [createValidationMiddleware_run schema ms req hv hs]
  have hbskip : ∀ st, validateBodyStep ms req st = st := fun st =>
    validateBodyStep_skip ms req st hct
  have hcalls : "body".data ∉ (runValidationSteps ms req).calls := by
    unfold runValidationSteps
    rw [hbskip]
    obtain ⟨pe, hpe, hpall⟩ := validateParamsStep_calls ms req
      ⟨[], ⟨none, none, none⟩, [], req.jsonBody⟩
    obtain ⟨qe, hqe, hqall⟩ := validateQueryStep_calls ms req
      (validateParamsStep ms req ⟨[], ⟨none, none, none⟩, [], req.jsonBody⟩)
    rw [hqe, hpe]
    intro hmem
    rcases List.mem_append.mp hmem with hmem' | hmem'
    · rcases List.mem_append.mp hmem' with hmem'' | hmem''
      · simp at hmem''
      · have := hpall _ hmem''
        simp_all
    · have := hqall _ hmem'
      simp_all
  have hfields : ∀ fe ∈ (runValidationSteps ms req).errors, fe.field ≠ "body".data := by
    intro fe hfe
    rw [runValidationSteps_errors] at hfe
    unfold specFieldFailures at hfe
    rw [bodyFailures_of_nonjson ms req hct] at hfe
    simp only [List.append_nil, List.mem_append] at hfe
    rcases hfe with hfe | hfe
    · rw [paramsFailures_fields ms req fe hfe]
      decide
    · rw [queryFailures_fields ms req fe hfe]
      decide
  refine ⟨?_, ?_, ?_⟩
  · split <;> simpa using hcalls
  · intro s errs fe houtcome hmem
    split at houtcome
    · simp only [VOutcome.short.injEq] at houtcome
      rw [← houtcome.2] at hmem
      rcases List.mem_append.mp hmem with hmem' | hmem'
      · obtain ⟨fe', hfe', heq⟩ := List.mem_map.mp hmem'
        have hfeeq : fe' = fe := Option.some.inj heq
        exact hfeeq ▸ hfields fe' hfe'
      · have := List.eq_of_mem_replicate hmem'
        simp at this
    · simp at houtcome
  · intro hpf hqf
    have herr : (runValidationSteps ms req).errors = [] := by
      rw [runValidationSteps_errors]
      unfold specFieldFailures
      rw [hpf, hqf, bodyFailures_of_nonjson ms req hct]
      rfl
    rw [if_neg (by simp [herr])]
    exact ⟨_, rfl⟩

/-- Witness: the amended body-skip behaviour at the concrete text/plain
request of the counterexample. -/
theorem nonjson_body_skipped_witness :
    "body".data ∉ (createValidationMiddleware schemaBodyOnly reqTextPlain).calls ∧
    ∃ req', (createValidationMiddleware schemaBodyOnly reqTextPlain).outcome =
      VOutcome.next req' := by
  have h := nonjson_body_skipped schemaBodyOnly msBodyOnly reqTextPlain rfl rfl rfl
  exact ⟨h.1, h.2.2 rfl rfl⟩

/-- C5 counterexample: the body-validated route requiring name and price,
invoked with JSON body given by the empty object, returns 400 — but the
errors array is the pre-allocated three-slot array: a single field failure
with field body (one structured error mentioning both missing fields)
followed by two holes that serialize as JSON null.  It is neither exactly
the list of recorded failures and nothing else, nor two per-field entries
for name and price; this refutes the claim at this concrete input. -/
theorem error_list_padded :
    createValidationMiddleware schemaNamePrice reqEmptyBody =
      ⟨VOutcome.short 400
        [some ⟨"body".data, "name: Required; price: Required".data⟩, none, none],
       ["body".data]⟩ := by
  rfl

/-- C5 amended: whenever validation accumulates at least one field failure,
the middleware short-circuits with a 400 whose errors array is the
pre-allocated three-slot array: the full ordered list of recorded field
failures (params slice, then query, then body) in the leading slots, and
every remaining slot a hole that serializes as JSON null — so the list is
padded to three slots whenever fewer than three slices fail. -/
theorem validation_short_circuit_error_list (schema : RouteSchema) (ms : MethodSchema)
    (req : VRequest) (hv : req.validated = none)
    (hs : assocFind (toLowerStr req.method) schema = some ms)
    (hne : specFieldFailures ms req ≠ []) :
    (createValidationMiddleware schema req).outcome =
      VOutcome.short 400 ((specFieldFailures ms req).map some ++
        List.replicate (3 - (specFieldFailures ms req).length) none) := by
  rw [createValidationMiddleware_run schema ms req hv hs]
  have herr := runValidationSteps_errors ms req
  have hlen : (runValidationSteps ms req).errors.length > 0 := by
    rw [herr]
    exact List.length_pos.mpr hne
  rw [if_pos hlen]
  rw [herr]

/-- Witness: the amended 400 payload at the concrete name/price example. -/
theorem validation_short_circuit_error_list_witness :
    (createValidationMiddleware schemaNamePrice reqEmptyBody).outcome =
      VOutcome.short 400
        ((specFieldFailures msNamePrice reqEmptyBody).map some ++
          List.replicate (3 - (specFieldFailures msNamePrice reqEmptyBody).length) none) :=
  validation_short_circuit_error_list schemaNamePrice msNamePrice reqEmptyBody rfl rfl
    (by decide)

theorem matchSegments_cons (o r : Str) (os rs : List Str) (acc : List (Str × Str)) :
    matchSegments (o :: os) (r :: rs) acc =
      if startsWithChar ':' o = true then
        matchSegments os rs (acc ++ [(o.drop 1, percentDecode r)])
      else if o = r then matchSegments os rs acc
      else none := rfl

theorem paramBindings_cons (o r : Str) (os rs : List Str) :
    paramBindings (o :: os) (r :: rs) =
      (if startsWithChar ':' o = true then [(o.drop 1, percentDecode r)] else []) ++
        paramBindings os rs := by
  by_cases hp : startsWithChar ':' o = true <;>
    simp [paramBindings, hp]

theorem matchSegments_spec (routeSegments reqSegments : List Str)
    (acc : List (Str × Str)) (hlen : routeSegments.length = reqSegments.length) :
    ((∀ p ∈ routeSegments.zip reqSegments, startsWithChar ':' p.1 = false → p.1 = p.2) →
        matchSegments routeSegments reqSegments acc =
          some (acc ++ paramBindings routeSegments reqSegments)) ∧
    ((∃ p ∈ routeSegments.zip reqSegments, startsWithChar ':' p.1 = false ∧ p.1 ≠ p.2) →
        matchSegments routeSegments reqSegments acc = none) := by
  induction routeSegments generalizing reqSegments acc with
  | nil =>
    cases reqSegments with
    | nil => simp [matchSegments, paramBindings]
    | cons r rs => simp at hlen
  | cons o os ih =>
    cases reqSegments with
    | nil => simp at hlen
    | cons r rs =>
      have hlen' : os.length = rs.length := by simpa using hlen
      rw [matchSegments_cons, paramBindings_cons]
      constructor
      · intro hall
        have htail := (ih rs acc hlen').1 (fun p hmem hps =>
          hall p (List.mem_cons_of_mem _ hmem) hps)
        by_cases hp : startsWithChar ':' o = true
        · have hpar := (ih rs (acc ++ [(o.drop 1, percentDecode r)]) hlen').1
            (fun p hmem hps => hall p (List.mem_cons_of_mem _ hmem) hps)
          rw [if_pos hp, if_pos hp, hpar]
          simp
        · have heq : o = r := hall (o, r) (by simp) (by simpa using hp)
          rw [if_neg hp, if_neg hp, if_pos heq, htail]
          simp
      · intro hex
        obtain ⟨p, hmem, hps, hne⟩ := hex
        rcases List.mem_cons.mp hmem with hhead | htail
        · have hp : startsWithChar ':' o = false := by rw [hhead] at hps; exact hps
          have hor : ¬ (o = r) := by
            intro h
            exact hne (by rw [hhead]; exact h)
          rw [if_neg (by simp [hp]), if_neg hor]
        · by_cases hp : startsWithChar ':' o = true
          · have hpar := (ih rs (acc ++ [(o.drop 1, percentDecode r)]) hlen').2
              ⟨p, htail, hps, hne⟩
            rw [if_pos hp, hpar]
          · by_cases heq : o = r
            · have htl := (ih rs acc hlen').2 ⟨p, htail, hps, hne⟩
              rw [if_neg hp, if_pos heq, htl]
            · rw [if_neg hp, if_neg heq]

/-- C7: for every request path and candidate route pattern, the matcher
rejects the candidate when the segment counts differ; otherwise it walks
the segments pairwise — every literal (non-':') route segment must equal
the request segment exactly, and every parameter segment always matches and
binds the percent-decoded request segment under its parameter name, the
bindings accumulating in order (paramBindings). -/
theorem matcher_segment_walk (requestPath routePath : Str) :
    ((splitSegments requestPath).length ≠ (splitSegments routePath).length →
        matchRoute requestPath routePath = none) ∧
    ((splitSegments requestPath).length = (splitSegments routePath).length →
      ((∀ p ∈ (splitSegments routePath).zip (splitSegments requestPath),
          startsWithChar ':' p.1 = false → p.1 = p.2) →
        matchRoute requestPath routePath =
          some (paramBindings (splitSegments routePath) (splitSegments requestPath))) ∧
      ((∃ p ∈ (splitSegments routePath).zip (splitSegments requestPath),
          startsWithChar ':' p.1 = false ∧ p.1 ≠ p.2) →
        matchRoute requestPath routePath = none)) := by
  constructor
  · intro hne
    simp [matchRoute, hne]
  · intro hlen
    have hspec := matchSegments_spec (splitSegments routePath) (splitSegments requestPath)
      [] hlen.symm
    constructor
    · intro hall
      have := hspec.1 hall
      simp only [matchRoute, hlen, ne_eq, not_true_eq_false, if_false, reduceIte]
      simpa using this
    · intro hex
      have := hspec.2 hex
      simp only [matchRoute, hlen, ne_eq, not_true_eq_false, if_false, reduceIte]
      simpa using this

/-- Witness: the matcher at the concrete request /api/product/42 against
the pattern /api/product/:id, the length and literal hypotheses discharged
by computation; the binding is id bound to 42. -/
theorem matcher_segment_walk_witness :
    matchRoute "/api/product/42".data "/api/product/:id".data =
      some (paramBindings (splitSegments "/api/product/:id".data)
        (splitSegments "/api/product/42".data)) ∧
    paramBindings (splitSegments "/api/product/:id".data)
        (splitSegments "/api/product/42".data) = [("id".data, "42".data)] :=
  ⟨((matcher_segment_walk "/api/product/42".data "/api/product/:id".data).2
      (by decide)).1 (by decide),
   by decide⟩

/-- C8: the compiler's segment loop drops empty segments, omits every
grouping segment (name), rewrites every dynamic segment [name] to :name and
keeps every other segment literally (stated as a filterMap equation);
consequently api/product/[id]/route.ts compiles to /api/product/:id — and a
request to /api/product/42 on that pattern binds id to 42 — while
api/(admin)/users/route.ts compiles to /api/users, the grouping segment
invisible in the URL. -/
theorem compile_path_to_pattern :
    (∀ segments : List Str, processSegments segments = segments.filterMap (fun segment =>
        if segment = [] then none
        else if startsWithChar '(' segment && endsWithChar ')' segment then none
        else if startsWithChar '[' segment && endsWithChar ']' segment then
          some (':' :: (segment.drop 1).dropLast)
        else some segment)) ∧
    convertFilePathToRoute [] "api/product/[id]/route.ts".data = "/api/product/:id".data ∧
    matchRoute "/api/product/42".data "/api/product/:id".data =
      some [("id".data, "42".data)] ∧
    convertFilePathToRoute [] "api/(admin)/users/route.ts".data = "/api/users".data := by
  refine ⟨?_, by decide, by decide, by decide⟩
  intro segments
  induction segments with
  | nil => rfl
  | cons s rest ih =>
    simp only [processSegments, List.filterMap_cons]
    split_ifs <;> simp [ih]

/-- C1: a request whose path matches a registered pattern but whose method
has no handler on the resolved descriptor is classified method-mismatch
(the 405 METHOD_NOT_ALLOWED response of the route closure), distinctly from
no-match: the 404 NOT_FOUND fallback is returned exactly when no
descriptor's pattern matches the path.  Concretely, with only GET registered
on /x, a DELETE /x request yields 405 while a GET /y request yields 404. -/
theorem method_mismatch_distinct_from_no_match :
    (∀ (H : Type) (routes : List (RouteDefinition H)) (reqPath method : Str)
        (route : RouteDefinition H) (params : List (Str × Str)),
        findMatch routes reqPath = some (route, params) →
        assocFind method route.handlers = none →
        handleRequest routes reqPath method = RoutingOutcome.methodNotAllowed) ∧
    (∀ (H : Type) (routes : List (RouteDefinition H)) (reqPath method : Str),
        handleRequest routes reqPath method = RoutingOutcome.notFound ↔
          findMatch routes reqPath = none) ∧
    handleRequest xOnlyTable "/x".data "DELETE".data = RoutingOutcome.methodNotAllowed ∧
    handleRequest xOnlyTable "/y".data "GET".data = RoutingOutcome.notFound := by
  refine ⟨?_, ?_, by decide, by decide⟩
  · intro H routes reqPath method route params hfind hmethod
    simp [handleRequest, hfind, hmethod]
  · intro H routes reqPath method
    unfold handleRequest
    cases hf : findMatch routes reqPath with
    | none => simp
    | some rp =>
      cases hm : assocFind method rp.1.handlers <;> simp [hm]

/-- Witness: the 405 classification applied at the concrete one-route table
with a DELETE request, the match and missing-handler hypotheses discharged
by computation. -/
theorem method_mismatch_distinct_from_no_match_witness :
    handleRequest xOnlyTable "/x".data "DELETE".data =
      RoutingOutcome.methodNotAllowed :=
  method_mismatch_distinct_from_no_match.1 Unit xOnlyTable "/x".data "DELETE".data
    { path := "/x".data, handlers := [("GET".data, ())] } [] (by decide) (by decide)

theorem processLoop_append {σ R : Type} (pre : List (Middleware σ R)) :
    ∀ (rest : List (Middleware σ R)) (acc : List (σ → R → σ × R)) (handler : Handler σ R)
      (s s' : σ) (ts : List (σ → R → σ × R)),
      forwardCollect pre s = some (s', ts) →
      processLoop (pre ++ rest) acc handler s = processLoop rest (ts.reverse ++ acc) handler s' := by
  induction pre with
  | nil =>
    intro rest acc handler s s' ts hcol
    simp only [forwardCollect, Option.some.injEq, Prod.mk.injEq] at hcol
    rw [← hcol.1, ← hcol.2]
    simp
  | cons mw pre' ih =>
    intro rest acc handler s s' ts hcol
    simp only [forwardCollect] at hcol
    rcases hmw : mw s with ⟨s1, mr⟩
    rw [hmw] at hcol
    cases mr with
    | response r => simp at hcol
    | transform f =>
      simp only [Option.map_eq_some'] at hcol
      obtain ⟨⟨s2, ts'⟩, hcol', heq⟩ := hcol
      simp only [Prod.mk.injEq] at heq
      have hloop := ih rest (f :: acc) handler s1 s2 ts' hcol'
      simp only [List.cons_append, processLoop, hmw]
      obtain ⟨heq1, heq2⟩ := heq
      subst heq1
      subst heq2
      have hrev : (f :: ts').reverse ++ acc = ts'.reverse ++ f :: acc := by simp
      rw [hrev]
      exact hloop
    | next =>
      have hloop := ih rest acc handler s1 s' ts hcol
      simp only [List.cons_append, processLoop, hmw]
      exact hloop

theorem processMiddleware_eq_loop {σ R : Type} (mws : List (Middleware σ R))
    (handler : Handler σ R) (s : σ) :
    processMiddleware mws handler s = processLoop mws [] handler s := by
  match mws with
  | [] => rfl
  | [mw] =>
    simp only [processMiddleware, processLoop]
    rcases hmw : mw s with ⟨s', mr⟩
    cases mr <;> simp [processLoop, runAfter]
  | m1 :: m2 :: rest => rfl

/-- C2: the three-outcome dispatch contract of the precomputed middleware
chain.  First conjunct: when the forward traversal reaches a middleware that
returns a finished response, dispatch returns exactly that response with
exactly the state left by that middleware — the result does not even mention
the later middlewares, the handler or the transforms already collected, so
none of them executes.  Second conjunct: when no middleware short-circuits,
the handler's response is passed through the collected transform functions
in reverse order of registration (the collected list is reversed before
being applied), so the first-registered middleware's transform runs last and
has the final opportunity to modify the outgoing response. -/
theorem middleware_short_circuit_and_transform_order {σ R : Type} :
    (∀ (pre post : List (Middleware σ R)) (mw : Middleware σ R) (handler : Handler σ R)
        (s s' s'' : σ) (ts : List (σ → R → σ × R)) (r : R),
        forwardCollect pre s = some (s', ts) →
        mw s' = (s'', MwResult.response r) →
        processMiddleware (pre ++ mw :: post) handler s = (s'', r)) ∧
    (∀ (mws : List (Middleware σ R)) (handler : Handler σ R) (s s' : σ)
        (ts : List (σ → R → σ × R)),
        forwardCollect mws s = some (s', ts) →
        processMiddleware mws handler s =
          runAfter ts.reverse (handler s').1 (handler s').2) := by
  constructor
  · intro pre post mw handler s s' s'' ts r hcol hmw
    rw [processMiddleware_eq_loop,
      processLoop_append pre (mw :: post) [] handler s s' ts hcol]
    simp [processLoop, hmw]
  · intro mws handler s s' ts hcol
    rw [processMiddleware_eq_loop]
    have := processLoop_append mws [] [] handler s s' ts hcol
    simpa [processLoop] using this

/-- Witness: the dispatch contract at concrete chains over a Nat state
counting executions.  The chain transform, short-circuit, late-middleware
returns (101, 7): the transform middleware ran (state 1), the short-circuit
added 100, and neither the late middleware (+1000), nor the handler
(+10000), nor the collected transform ever executed.  The chain of the two
transforms around the pure handler returns response 11 = (2 * 5) + 1: the
last-registered doubling transform ran first and the first-registered
increment ran last. -/
theorem middleware_short_circuit_and_transform_order_witness :
    processMiddleware [mwA, mwShort, mwLate] hdl 0 = (101, 7) ∧
    processMiddleware [mwA, mwB] hdlPure 0 = (3, 11) := by
  constructor
  · exact middleware_short_circuit_and_transform_order.1 [mwA] [mwLate] mwShort hdl
      0 1 101 [trA] 7 rfl rfl
  · have := middleware_short_circuit_and_transform_order.2 [mwA, mwB] hdlPure
      0 3 [trA, trB] rfl
    rw [this]
    rfl

theorem lexCompare_flip (a : Str) : ∀ b : Str, lexCompare b a = - lexCompare a b := by
  induction a with
  | nil =>
    intro b
    cases b <;> simp [lexCompare]
  | cons x xs ih =>
    intro b
    cases b with
    | nil => simp [lexCompare]
    | cons y ys =>
      simp only [lexCompare]
      rcases Nat.lt_trichotomy x.toNat y.toNat with h | h | h
      · simp [h, Nat.lt_asymm h]
      · simp only [h, lt_irrefl, if_false]
        exact ih ys
      · simp [h, Nat.lt_asymm h]

theorem lexCompare_trans (a : Str) : ∀ b c : Str,
    lexCompare a b ≤ 0 → lexCompare b c ≤ 0 → lexCompare a c ≤ 0 := by
  induction a with
  | nil =>
    intro b c _ _
    cases c <;> simp [lexCompare]
  | cons x xs ih =>
    intro b c h1 h2
    cases b with
    | nil => simp [lexCompare] at h1
    | cons y ys =>
      cases c with
      | nil => simp [lexCompare] at h2
      | cons z zs =>
        simp only [lexCompare] at h1 h2 ⊢
        rcases Nat.lt_trichotomy x.toNat y.toNat with hxy | hxy | hxy <;>
          rcases Nat.lt_trichotomy y.toNat z.toNat with hyz | hyz | hyz
        · simp [show x.toNat < z.toNat by omega]
        · simp [show x.toNat < z.toNat by omega]
        · simp [Nat.lt_asymm hyz, hyz] at h2
        · simp [show x.toNat < z.toNat by omega]
        · simp only [hxy, lt_irrefl, if_false] at h1
          simp only [hyz, lt_irrefl, if_false] at h2
          simp only [show ¬(x.toNat < z.toNat) by omega,
            show ¬(z.toNat < x.toNat) by omega, if_false]
          exact ih ys zs h1 h2
        · simp [Nat.lt_asymm hyz, hyz] at h2
        · simp [Nat.lt_asymm hxy, hxy] at h1
        · simp [Nat.lt_asymm hxy, hxy] at h1
        · simp [Nat.lt_asymm hxy, hxy] at h1

theorem compareRoutes_le_iff {H : Type} (a b : RouteDefinition H) :
    compareRoutes a b ≤ 0 ↔
      (getRouteSpecificity b.path < getRouteSpecificity a.path ∨
        (getRouteSpecificity a.path = getRouteSpecificity b.path ∧
          lexCompare a.path b.path ≤ 0)) := by
  show (if getRouteSpecificity a.path > getRouteSpecificity b.path then (-1 : Int)
      else if getRouteSpecificity a.path < getRouteSpecificity b.path then 1
      else lexCompare a.path b.path) ≤ 0 ↔ _
  split_ifs with h1 h2
  · simp only [gt_iff_lt] at h1
    constructor
    · intro _
      exact Or.inl h1
    · intro _
      omega
  · simp only [gt_iff_lt, not_lt] at h1
    constructor
    · intro h
      omega
    · intro h
      rcases h with h | h <;> omega
  · simp only [gt_iff_lt, not_lt] at h1 h2
    have heq : getRouteSpecificity a.path = getRouteSpecificity b.path := by omega
    constructor
    · intro h
      exact Or.inr ⟨heq, h⟩
    · intro h
      rcases h with h | h
      · omega
      · exact h.2

theorem compareRoutes_total {H : Type} (a b : RouteDefinition H) :
    compareRoutes a b ≤ 0 ∨ compareRoutes b a ≤ 0 := by
  rw [compareRoutes_le_iff, compareRoutes_le_iff]
  rcases Nat.lt_trichotomy (getRouteSpecificity a.path) (getRouteSpecificity b.path)
    with h | h | h
  · exact Or.inr (Or.inl h)
  · have hflip := lexCompare_flip a.path b.path
    rcases Int.le_total (lexCompare a.path b.path) 0 with hle | hle
    · exact Or.inl (Or.inr ⟨h, hle⟩)
    · exact Or.inr (Or.inr ⟨h.symm, by omega⟩)
  · exact Or.inl (Or.inl h)

instance routeOrderTrans {H : Type} : IsTrans (RouteDefinition H) routeOrder where
  trans a b c h1 h2 := by
    unfold routeOrder at *
    rw [compareRoutes_le_iff] at h1 h2 ⊢
    rcases h1 with h1 | h1 <;> rcases h2 with h2 | h2
    · exact Or.inl (by omega)
    · exact Or.inl (by omega)
    · exact Or.inl (by omega)
    · exact Or.inr ⟨by omega, lexCompare_trans a.path b.path c.path h1.2 h2.2⟩

instance routeOrderTotal {H : Type} : IsTotal (RouteDefinition H) routeOrder where
  total a b := compareRoutes_total a b

/-- C3: after loading, the route table is sorted so that for every pair of
descriptors in table order, the earlier one has strictly more literal
segments (higher specificity), or equal specificity and a pattern string
that is lexicographically no greater; the matcher, being a first-match scan
of that table, returns at most one descriptor per lookup; and in a table
containing both /product/featured and /product/:id, the static route comes
first and a request to /product/featured matches it. -/
theorem route_table_sorted_specificity_first :
    (∀ (H : Type) (routes : List (RouteDefinition H)),
        (sortRoutes routes).Pairwise (fun a b =>
          getRouteSpecificity b.path < getRouteSpecificity a.path ∨
            (getRouteSpecificity a.path = getRouteSpecificity b.path ∧
              lexCompare a.path b.path ≤ 0))) ∧
    (∀ (H : Type) (routes : List (RouteDefinition H)) (reqPath : Str)
        (r1 r2 : RouteDefinition H × List (Str × Str)),
        findMatch routes reqPath = some r1 → findMatch routes reqPath = some r2 →
        r1 = r2) ∧
    sortRoutes productTable = [featuredRoute, idRoute] ∧
    findMatch (sortRoutes productTable) "/product/featured".data =
      some (featuredRoute, []) := by
  refine ⟨?_, ?_, by decide, by decide⟩
  · intro H routes
    have hs := List.sorted_insertionSort routeOrder routes
    exact hs.imp (fun h => (compareRoutes_le_iff _ _).mp h)
  · intro H routes reqPath r1 r2 h1 h2
    rw [h1] at h2
    exact Option.some.inj h2

/-- Witness: uniqueness of the resolved descriptor applied at the concrete
sorted product table, both match hypotheses discharged by computation. -/
theorem route_table_sorted_specificity_first_witness :
    ((featuredRoute, ([] : List (Str × Str)))) = ((featuredRoute, [])) :=
  route_table_sorted_specificity_first.2.1 Unit (sortRoutes productTable)
    "/product/featured".data (featuredRoute, []) (featuredRoute, [])
    (by decide) (by decide)

theorem scanList_error_of_flag {H : Type} (pfx : Str) :
    ∀ (l2 : List (FsEntry H)) (name : Str) (sub l3 : List (FsEntry H)) (base : Str),
      isDynamicDir name = true →
      ∃ msg, scanList pfx base true (l2 ++ FsEntry.directory name sub :: l3) =
        Except.error msg := by
  intro l2
  induction l2 with
  | nil =>
    intro name sub l3 base hdyn
    exact ⟨dynConflictMsg name, by simp [scanList, hdyn]⟩
  | cons e l2' ih =>
    intro name sub l3 base hdyn
    cases e with
    | directory n s =>
      by_cases hd : isDynamicDir n = true
      · exact ⟨dynConflictMsg n, by simp [scanList, hd]⟩
      · obtain ⟨msg, hmsg⟩ := ih name sub l3 base hdyn
        rcases hs : scanList pfx (joinPath base n) false s with e' | inner
        · exact ⟨e', by simp [scanList, hd, hs]⟩
        · exact ⟨msg, by simp [scanList, hd, hs, hmsg]⟩
    | file n exports =>
      obtain ⟨msg, hmsg⟩ := ih name sub l3 base hdyn
      by_cases hf : n = "route.ts".data
      · exact ⟨msg, by simp [scanList, hf, hmsg]⟩
      · exact ⟨msg, by simp [scanList, hf, hmsg]⟩

theorem scanList_error_of_two_dynamics {H : Type} (pfx : Str) :
    ∀ (l1 : List (FsEntry H)) (n1 : Str) (s1 : List (FsEntry H)) (l2 : List (FsEntry H))
      (n2 : Str) (s2 : List (FsEntry H)) (l3 : List (FsEntry H)) (base : Str) (dyn : Bool),
      isDynamicDir n1 = true → isDynamicDir n2 = true →
      ∃ msg, scanList pfx base dyn
        (l1 ++ FsEntry.directory n1 s1 :: (l2 ++ FsEntry.directory n2 s2 :: l3)) =
        Except.error msg := by
  intro l1
  induction l1 with
  | nil =>
    intro n1 s1 l2 n2 s2 l3 base dyn h1 h2
    cases dyn with
    | true => exact ⟨dynConflictMsg n1, by simp [scanList, h1]⟩
    | false =>
      rcases hs : scanList pfx (joinPath base n1) false s1 with e' | inner
      · exact ⟨e', by simp [scanList, h1, hs]⟩
      · obtain ⟨msg, hmsg⟩ := scanList_error_of_flag pfx l2 n2 s2 l3 base h2
        exact ⟨msg, by simp [scanList, h1, hs, hmsg]⟩
  | cons e l1' ih =>
    intro n1 s1 l2 n2 s2 l3 base dyn h1 h2
    cases e with
    | directory n s =>
      by_cases hd : isDynamicDir n = true
      · cases dyn with
        | true => exact ⟨dynConflictMsg n, by simp [scanList, hd]⟩
        | false =>
          rcases hs : scanList pfx (joinPath base n) false s with e' | inner
          · exact ⟨e', by simp [scanList, hd, hs]⟩
          · obtain ⟨msg, hmsg⟩ := ih n1 s1 l2 n2 s2 l3 base true h1 h2
            exact ⟨msg, by simp [scanList, hd, hs, hmsg]⟩
      · rcases hs : scanList pfx (joinPath base n) false s with e' | inner
        · exact ⟨e', by simp [scanList, hd, hs]⟩
        · obtain ⟨msg, hmsg⟩ := ih n1 s1 l2 n2 s2 l3 base dyn h1 h2
          exact ⟨msg, by simp [scanList, hd, hs, hmsg]⟩
    | file n exports =>
      obtain ⟨msg, hmsg⟩ := ih n1 s1 l2 n2 s2 l3 base dyn h1 h2
      by_cases hf : n = "route.ts".data
      · exact ⟨msg, by simp [scanList, hf, hmsg]⟩
      · exact ⟨msg, by simp [scanList, hf, hmsg]⟩

theorem scanList_error_of_sub {H : Type} (pfx : Str) (sub : List (FsEntry H))
    (hsub : ∀ (base : Str) (dyn : Bool), ∃ msg,
      scanList pfx base dyn sub = Except.error msg) :
    ∀ (l1 : List (FsEntry H)) (name : Str) (l2 : List (FsEntry H)) (base : Str) (dyn : Bool),
      ∃ msg, scanList pfx base dyn (l1 ++ FsEntry.directory name sub :: l2) =
        Except.error msg := by
  intro l1
  induction l1 with
  | nil =>
    intro name l2 base dyn
    obtain ⟨msg, hmsg⟩ := hsub (joinPath base name) false
    by_cases hd : isDynamicDir name = true
    · cases dyn with
      | true => exact ⟨dynConflictMsg name, by simp [scanList, hd]⟩
      | false => exact ⟨msg, by simp [scanList, hd, hmsg]⟩
    · exact ⟨msg, by simp [scanList, hd, hmsg]⟩
  | cons e l1' ih =>
    intro name l2 base dyn
    cases e with
    | directory n s =>
      by_cases hd : isDynamicDir n = true
      · cases dyn with
        | true => exact ⟨dynConflictMsg n, by simp [scanList, hd]⟩
        | false =>
          rcases hs : scanList pfx (joinPath base n) false s with e' | inner
          · exact ⟨e', by simp [scanList, hd, hs]⟩
          · obtain ⟨msg, hmsg⟩ := ih name l2 base true
            exact ⟨msg, by simp [scanList, hd, hs, hmsg]⟩
      · rcases hs : scanList pfx (joinPath base n) false s with e' | inner
        · exact ⟨e', by simp [scanList, hd, hs]⟩
        · obtain ⟨msg, hmsg⟩ := ih name l2 base dyn
          exact ⟨msg, by simp [scanList, hd, hs, hmsg]⟩
    | file n exports =>
      obtain ⟨msg, hmsg⟩ := ih name l2 base dyn
      by_cases hf : n = "route.ts".data
      · exact ⟨msg, by simp [scanList, hf, hmsg]⟩
      · exact ⟨msg, by simp [scanList, hf, hmsg]⟩

theorem scanList_error_of_conflict {H : Type} (pfx : Str) (es : List (FsEntry H))
    (h : HasDynConflict es) :
    ∀ (base : Str) (dyn : Bool), ∃ msg, scanList pfx base dyn es = Except.error msg := by
  induction h with
  | here l1 n1 s1 l2 n2 s2 l3 h1 h2 =>
    intro base dyn
    exact scanList_error_of_two_dynamics pfx l1 n1 s1 l2 n2 s2 l3 base dyn h1 h2
  | inSub l1 name sub l2 _ ih =>
    intro base dyn
    exact scanList_error_of_sub pfx sub ih l1 name l2 base dyn

/-- C6: a route directory tree in which two sibling directories at the same
level are both dynamic fails during the scan with the configuration error —
wherever the conflicting level sits in the tree, scanDirectory propagates
the error outward — and loadRoutes therefore yields an error instead of a
route table: the failure happens at compilation (scan) time, so no table
exists to defer the error to request time. -/
theorem dynamic_sibling_conflict_aborts (H : Type) (pfx : Str) (root : List (FsEntry H))
    (h : HasDynConflict root) :
    (∃ msg, scanList pfx [] false root = Except.error msg) ∧
    (∃ msg, loadRoutes pfx root = Except.error msg) := by
  obtain ⟨msg, hmsg⟩ := scanList_error_of_conflict pfx root h [] false
  refine ⟨⟨msg, hmsg⟩, ⟨"Failed to load routes: ".data ++ msg, ?_⟩⟩
  simp [loadRoutes, hmsg]

/-- Witness: the abort applied at the concrete tree with dynamic siblings
[a] and [b] at top level, the conflict hypothesis built by the predicate's
constructor. -/
theorem dynamic_sibling_conflict_aborts_witness :
    ∃ msg, loadRoutes [] conflictTree = Except.error msg :=
  (dynamic_sibling_conflict_aborts Unit [] conflictTree
    (HasDynConflict.here [] "[a]".data [] [] "[b]".data [] [] rfl rfl)).2

end BurgerApi
